import Mathlib

/-!
# Verification of the `gows` collaborative pixel-canvas server

Shallow embedding of `src/server.go` (the second, richer server generation —
2-byte panel indices, server-assigned colors, PNG snapshot persistence — which
the spec adopts as canonical) together with the parts of the converged design
that the spec documents but that are absent from the server snapshots under
`src/` (admission gate, PanelSync compression, rate limiter); those are
modelled from the spec and flagged as such in their doc comments.

Conventions of the embedding:
* Go machine integers become `Nat`/`Int`; `byte` values are `Nat` (every byte
  read off the wire is `< 256`); `int64` timestamps are `Int` (Unix
  milliseconds never approach the `int64` range, so no wrap-around modelling
  is needed); the one place a timestamp is re-encoded as `uint64` on the wire
  takes an explicit `% 2 ^ 64`.
* The global `panels` array becomes a total function `Grid` from
  `(panel, y, x)` triples to `Pixel`; the source range-checks all indices
  before any array access, so totality is unobservable.
* Channels/goroutines are determinized: the hub's command loop becomes a fold
  over a command list, a client's buffered `send` channel becomes a list with
  the capacity bound `256` from `make(chan OutgoingMessage, 256)`, and a
  non-blocking channel send succeeds exactly when the buffer has room.
-/

namespace GoWS

/-- `panelSize` from `src/server.go`: panels are 128×128. -/
def panelSize : Nat := 128

/-- `numPanels` from `src/server.go` (second generation): 840 panels. -/
def numPanels : Nat := 840

/-- Capacity of a client's buffered `send` channel:
`make(chan OutgoingMessage, 256)` in `serveWs`. -/
def sendQueueCap : Nat := 256

/-- `cols` constant used by `snapshotPanels` / `loadLatestSnapshot`. -/
def snapCols : Nat := 28

/-- `rows` constant used by `snapshotPanels` / `loadLatestSnapshot`. -/
def snapRows : Nat := 30

/-- `Pixel` from `src/server.go`: a color (R, G, B bytes) and an `int64`
timestamp (Unix milliseconds of the last applied write). -/
structure Pixel where
  R : Nat
  G : Nat
  B : Nat
  Timestamp : Int
deriving DecidableEq, Repr

/-- The global `var panels [numPanels]Panel`, embedded as a total function
from `(panel, y, x)` index triples to cells.  The source indexes it as
`panels[panel][y][x]` and always range-checks first. -/
def Grid : Type := Nat × Nat × Nat → Pixel

/-- Go zero-initializes package-level arrays: at process startup every cell
is `{R:0, G:0, B:0, Timestamp:0}`. -/
def initialGrid : Grid := fun _ => ⟨0, 0, 0, 0⟩

/-- The mutex-guarded cell write from `readPump`'s `MsgTypeUpdate` case
(`src/server.go`, second generation):

```go
p := &panels[panel][y][x]
if now > p.Timestamp {
    p.R = rVal; p.G = gVal; p.B = bVal; p.Timestamp = now
}
```

This is the spec's Panel-Store `WriteCell`; the returned `Bool` is the spec's
`applied` result, realized in the code as whether the guard `now > p.Timestamp`
was taken (the write branch executed). -/
def writeCell (g : Grid) (panel y x : Nat) (rVal gVal bVal : Nat) (now : Int) :
    Grid × Bool :=
  if now > (g (panel, y, x)).Timestamp then
    (Function.update g (panel, y, x) ⟨rVal, gVal, bVal, now⟩, true)
  else
    (g, false)

/-- An outgoing effect of the inbound loop: either a frame handed to the hub
for fan-out (`c.hub.broadcast <- …`) or a frame enqueued on this client's own
send queue (`c.send <- …`).  Frames are byte lists. -/
inductive Out where
  | toHub (data : List Nat)
  | toClient (data : List Nat)
deriving DecidableEq, Repr

/-- `binary.BigEndian.PutUint16`: the two big-endian bytes of `uint16(n)`. -/
def be16 (n : Nat) : List Nat := [n % 65536 / 256, n % 256]

/-- The Go conversion `uint64(now)` for `now : int64` (two's-complement wrap). -/
def uint64ofInt (n : Int) : Nat := (n % (2 : Int) ^ 64).toNat

/-- `binary.BigEndian.PutUint64`: the eight big-endian bytes of `u`. -/
def be64 (u : Nat) : List Nat :=
  [u / 2 ^ 56 % 256, u / 2 ^ 48 % 256, u / 2 ^ 40 % 256, u / 2 ^ 32 % 256,
   u / 2 ^ 24 % 256, u / 2 ^ 16 % 256, u / 2 ^ 8 % 256, u % 256]

/-- The raw RGB export of one panel: the double loop
`for y … for x … append R, G, B` shared by `readPump`'s `MsgTypeRequest`
case and `syncPanels`.  This is the spec's Panel-Store `ReadPanel`. -/
def readPanel (g : Grid) (panel : Nat) : List Nat :=
  (List.range panelSize).flatMap fun y =>
    (List.range panelSize).flatMap fun x =>
      [(g (panel, y, x)).R, (g (panel, y, x)).G, (g (panel, y, x)).B]

/-- One iteration of `readPump`'s message switch (`src/server.go`, second
generation), for a binary frame `data` arriving at wall-clock millisecond
`now` on a connection whose server-assigned color is `color`.  Returns the
updated grid and the emitted frames, in order.

Fidelity notes: Go checks `panel < 0 || panel >= numPanels || x < 0 || …`;
`panel` comes from `binary.BigEndian.Uint16` and `x`, `y` from single bytes,
so the `< 0` disjuncts are vacuous and only the upper bounds remain here.
The broadcast frame is 16 bytes `[4, panelHi, panelLo, x, y, r, g, b, ts…]`
and the ack is `[3, 1]`; both are emitted unconditionally after the guarded
cell write, exactly as in the source. -/
def handleMessage (color : Nat × Nat × Nat) (now : Int) (g : Grid)
    (data : List Nat) : Grid × List Out :=
  if data.length < 1 then (g, [])
  else if data.getD 0 0 = 1 then
    -- case MsgTypeUpdate
    if data.length < 5 then (g, [])
    else
      let panel := 256 * data.getD 1 0 + data.getD 2 0
      let x := data.getD 3 0
      let y := data.getD 4 0
      let rVal := color.1
      let gVal := color.2.1
      let bVal := color.2.2
      if numPanels ≤ panel ∨ panelSize ≤ x ∨ panelSize ≤ y then (g, [])
      else
        let res := writeCell g panel y x rVal gVal bVal now
        (res.1,
          [Out.toHub ([4] ++ be16 panel ++ [x, y, rVal, gVal, bVal] ++
              be64 (uint64ofInt now)),
           Out.toClient [3, 1]])
  else if data.getD 0 0 = 2 then
    -- case MsgTypeRequest
    if data.length < 3 then (g, [])
    else
      let panel := 256 * data.getD 1 0 + data.getD 2 0
      if numPanels ≤ panel then (g, [])
      else (g, [Out.toClient ([5] ++ be16 panel ++ readPanel g panel)])
  else (g, [])

/-- The inbound loop over a sequence of frames (each paired with the
wall-clock `now` at which it is processed): frames are handled strictly in
order, accumulating the emitted output frames. -/
def processMessages (color : Nat × Nat × Nat) (g : Grid)
    (msgs : List (Int × List Nat)) : Grid × List Out :=
  msgs.foldl
    (fun acc m =>
      let r := handleMessage color m.1 acc.1 m.2
      (r.1, acc.2 ++ r.2))
    (g, [])

/-! ## Hub (`Hub.run` in `src/server.go`)

The hub's three channel cases are serialized by one goroutine (and the
`h.mu` lock); we embed its state as the list of registered clients — the Go
`map[*Client]bool` keyed by client pointer becomes a list keyed by a client
identifier, with map-iteration order determinized to list order — and its
loop as a fold over an incoming command list.  A client's buffered `send`
channel becomes its `queue` list; the non-blocking `select { case client.send
<- message: default: … }` succeeds exactly when the buffer has room
(`queue.length < sendQueueCap`), and `close(client.send)` sets `closed`. -/

/-- A registered client as the hub sees it: its identity (standing in for the
Go pointer), the contents of its buffered `send` channel, and whether that
channel has been closed. -/
structure HClient where
  id : Nat
  queue : List Out
  closed : Bool
deriving DecidableEq, Repr

/-- The `case message := <-h.broadcast` body of `Hub.run`: iterate over the
registered clients; a client with room gets the message appended to its
queue, a client with a full queue has its channel closed and is deleted from
the set.  Returns (clients remaining registered, clients evicted during this
broadcast). -/
def hubBroadcast (message : Out) : List HClient → List HClient × List HClient
  | [] => ([], [])
  | c :: rest =>
    let r := hubBroadcast message rest
    if c.queue.length < sendQueueCap then
      ({ c with queue := c.queue ++ [message] } :: r.1, r.2)
    else
      (r.1, { c with closed := true } :: r.2)

/-- The `case client := <-h.register` body: `h.clients[client] = true`.
Inserting a key already present leaves the map unchanged. -/
def hubRegister (c : HClient) (s : List HClient) : List HClient :=
  if s.any (fun c' => c'.id = c.id) then s else s ++ [c]

/-- The `case client := <-h.unregister` body: if present, delete the client
and close its channel (the closed client leaves the state). -/
def hubUnregister (i : Nat) (s : List HClient) : List HClient :=
  s.filter fun c => c.id ≠ i

/-- A command consumed by `Hub.run`'s `select`. -/
inductive HubCmd where
  | register (c : HClient)
  | unregister (i : Nat)
  | broadcast (message : Out)
deriving Repr

/-- One iteration of `Hub.run`'s `select`. -/
def hubStep (s : List HClient) : HubCmd → List HClient
  | .register c => hubRegister c s
  | .unregister i => hubUnregister i s
  | .broadcast m => (hubBroadcast m s).1

/-- `Hub.run` consuming a finite command sequence. -/
def hubRun (s : List HClient) (cmds : List HubCmd) : List HClient :=
  cmds.foldl hubStep s

/-- Whether a hub command (re-)registers the client identity `i`. -/
def registersId (i : Nat) : HubCmd → Prop
  | .register c => c.id = i
  | .unregister _ => False
  | .broadcast _ => False

instance (i : Nat) (cmd : HubCmd) : Decidable (registersId i cmd) := by
  cases cmd <;> simp only [registersId] <;> infer_instance

/-! ## Persistence (`snapshotPanels` / `loadLatestSnapshot`)

The PNG codec (`image/png`) is an external library; PNG is lossless for
RGBA rasters, so the file round trip `png.Encode` / `png.Decode` is embedded
as handing the in-memory raster across unchanged.  `image.RGBA` becomes a
record with a pixel function: `NewRGBA` zero-initializes, `Set` is a
bounds-checked point update (Go's `Set` ignores out-of-rect coordinates) and
`At` a bounds-checked read (Go's `At` returns the zero color outside the
rect); `color.RGBAModel.Convert` on an RGBA value is the identity. -/

/-- An RGBA color value `(R, G, B, A)`. -/
abbrev Rgba := Nat × Nat × Nat × Nat

/-- `image.RGBA` with rect `(0,0)–(width,height)`. -/
structure RGBAImage where
  width : Nat
  height : Nat
  pix : Nat × Nat → Rgba

/-- `image.NewRGBA(image.Rect(0, 0, w, h))`: all pixels zero. -/
def newRGBA (w h : Nat) : RGBAImage :=
  { width := w, height := h, pix := fun _ => (0, 0, 0, 0) }

/-- `img.Set(x, y, c)`: point update, no-op outside the rect. -/
def imgSet (img : RGBAImage) (X Y : Nat) (c : Rgba) : RGBAImage :=
  if X < img.width ∧ Y < img.height then
    { img with pix := Function.update img.pix (X, Y) c }
  else img

/-- `img.At(x, y)` (converted to `color.RGBA`): zero outside the rect. -/
def imgAt (img : RGBAImage) (X Y : Nat) : Rgba :=
  if X < img.width ∧ Y < img.height then img.pix (X, Y) else (0, 0, 0, 0)

/-- The `(i, y, x)` iteration space common to the triple loops of
`snapshotPanels` and `loadLatestSnapshot`, in source iteration order. -/
def cellList : List (Nat × Nat × Nat) :=
  (List.range numPanels).flatMap fun i =>
    (List.range panelSize).flatMap fun y =>
      (List.range panelSize).map fun x => (i, y, x)

/-- `xOffset + x` for panel `i`: `col := i % cols; xOffset := col * panelSize`. -/
def tileX (i x : Nat) : Nat := i % snapCols * panelSize + x

/-- `yOffset + y` for panel `i`: `row := i / cols; yOffset := row * panelSize`. -/
def tileY (i y : Nat) : Nat := i / snapCols * panelSize + y

/-- `snapshotPanels` (`src/server.go`): tile all panels into one
`cols·S × rows·S` RGBA raster, alpha 255, under the read lock.  (The
subsequent `png.Encode` to a timestamp-named file is the lossless external
codec, embedded as the identity on this raster.) -/
def snapshotPanels (g : Grid) : RGBAImage :=
  cellList.foldl
    (fun img t =>
      imgSet img (tileX t.1 t.2.2) (tileY t.1 t.2.1)
        ((g t).R, (g t).G, (g t).B, 255))
    (newRGBA (snapCols * panelSize) (snapRows * panelSize))

/-- The pixel-restoring triple loop of `loadLatestSnapshot`: for every
`(i, y, x)`, overwrite the cell's color from the decoded image at the tiled
coordinates and reset its timestamp to 0. -/
def restorePixels (img : RGBAImage) (g : Grid) : Grid :=
  cellList.foldl
    (fun g' t =>
      Function.update g' t
        { R := (imgAt img (tileX t.1 t.2.2) (tileY t.1 t.2.1)).1
          G := (imgAt img (tileX t.1 t.2.2) (tileY t.1 t.2.1)).2.1
          B := (imgAt img (tileX t.1 t.2.2) (tileY t.1 t.2.1)).2.2.1
          Timestamp := 0 })
    g

/-- Go strings are byte strings compared bytewise; filenames here are ASCII,
so we embed them as `List Char` with bytewise comparison. -/
def strLe : List Char → List Char → Bool
  | [], _ => true
  | _ :: _, [] => false
  | a :: as, b :: bs => if a < b then true else if b < a then false else strLe as bs

/-- `filepath.Ext(name)`: the suffix beginning at the final dot (the names
returned by `os.ReadDir` contain no path separator); empty if no dot. -/
def extOf (cs : List Char) : List Char :=
  cs.foldl
    (fun acc c =>
      if c = '.' then ['.']
      else match acc with
        | [] => []
        | _ => acc ++ [c])
    []

/-- One entry of `os.ReadDir("/Users/Shared/data")`. -/
structure DirEntry where
  name : List Char
  isDir : Bool

/-- `sort.Strings`: sort filenames in bytewise-lexicographic order. -/
def sortStrings (l : List (List Char)) : List (List Char) :=
  List.insertionSort (fun a b => strLe a b = true) l

/-- The `snapshots` slice built by `loadLatestSnapshot`'s directory scan:
skip directories, keep names with extension `.png`. -/
def snapshotNames (entries : List DirEntry) : List (List Char) :=
  (entries.filter fun e => ¬e.isDir ∧ extOf e.name = ".png".data).map
    DirEntry.name

/-- `sort.Strings(snapshots); latest := snapshots[len(snapshots)-1]`. -/
def latestSnapshotName (entries : List DirEntry) : List Char :=
  (sortStrings (snapshotNames entries)).getLastD []

/-- `loadLatestSnapshot` (`src/server.go`), with the file system abstracted:
`entries` is the directory listing and `readAndDecode latest` the combined
result of `os.Open` + `png.Decode` on the chosen file (`none` embeds either
failure, after which the function returns with the grid untouched).  Filter
out directories and non-`.png` names, return unchanged if none remain, sort,
pick the last, decode, reject on dimension mismatch with the expected
`cols·S × rows·S`, otherwise overwrite the grid's pixels. -/
def loadLatestSnapshot (entries : List DirEntry)
    (readAndDecode : List Char → Option RGBAImage) (g : Grid) : Grid :=
  if (snapshotNames entries).isEmpty then g
  else
    match readAndDecode (latestSnapshotName entries) with
    | none => g
    | some img =>
      if img.width ≠ snapCols * panelSize ∨ img.height ≠ snapRows * panelSize
      then g
      else restorePixels img g

/-! ## Converged-design components modelled from the spec

The spec describes the converged design of several evolutionary server
snapshots; the two snapshots under `src/` predate three of its components —
the per-connection token-bucket rate limiter, the Turnstile admission gate
(whose caller is under `src/src/App.jsx`: the client appends
`cf-turnstile-response=…` to the `/ws` URL), and the deflate compression of
PanelSync payloads (whose consumer is under `src/src/App.jsx`:
`pako.inflate`).  Each is modelled from the spec's words below. -/

/-- Modelled from the spec: the state of the per-connection token-bucket rate
limiter ("consult a token-bucket rate limiter (refill rate and burst are
configuration)"); the rate-limiting Connection-Actor generation is not under
`src/`. -/
structure TokenBucket where
  tokens : Int
deriving DecidableEq, Repr

/-- Modelled from the spec: one consultation of the token bucket.  `elapsed`
time refills the bucket at `rate` tokens per unit, capped at `burst`; an
Update is admitted when a whole token is available, consuming it, and is
dropped otherwise. -/
def tbStep (rate burst elapsed : Int) (tb : TokenBucket) : TokenBucket × Bool :=
  let t := min (tb.tokens + rate * elapsed) burst
  if 1 ≤ t then (⟨t - 1⟩, true) else (⟨t⟩, false)

/-- Modelled from the spec: the inbound-loop Update path with the rate
limiter in front ("Update: consult a token-bucket rate limiter …; if
exhausted, silently drop the frame (no ack, no error signaled to client)").
Only Update frames (type byte 1) consult the bucket; a dropped frame
produces no grid change and no output, and the connection just moves on. -/
def rateLimitedStep (rate burst : Int) (color : Nat × Nat × Nat)
    (tb : TokenBucket) (elapsed now : Int) (g : Grid) (data : List Nat) :
    TokenBucket × Grid × List Out :=
  if data.getD 0 0 = 1 then
    let r := tbStep rate burst elapsed tb
    if r.2 then (r.1, handleMessage color now g data)
    else (r.1, g, [])
  else (tb, handleMessage color now g data)

/-- Modelled from the spec: the sequence of limiter consultations a
connection performs over a window of Update arrivals (one entry per Update,
giving the time elapsed since the previous consultation).  Returns the final
bucket and the number of admitted Updates. -/
def countAllowed (rate burst : Int) : TokenBucket → List Int → TokenBucket × Nat
  | tb, [] => (tb, 0)
  | tb, e :: es =>
    let r := tbStep rate burst e tb
    let rest := countAllowed rate burst r.1 es
    (rest.1, (if r.2 then 1 else 0) + rest.2)

/-- Observable steps of a connection attempt, for stating the order of the
admission check relative to the transport upgrade and hub registration. -/
inductive ConnEvent where
  | verifyCall (ok : Bool)
  | upgradeAttempt (ok : Bool)
  | assignColor
  | registerClient
deriving DecidableEq, Repr

/-- Modelled from the spec: the gated connection setup ("`Verify(token,
callerAddress)` … called once, synchronously, before any transport upgrade;
failure must reject the upgrade attempt without registering a Connection
Actor"); the gated `serveWs` generation is not under `src/` (the client
under `src/src/App.jsx` sends the token on the `/ws` URL).  On success the
setup continues as in `src/server.go`'s `serveWs`: attempt the upgrade
(which can itself fail, ending the handler), then create the client, assign
its random color and register it with the hub. -/
def serveWsAdmission (verify : List Char → List Char → Bool)
    (token callerAddr : List Char) (upgradeOk : Bool) : List ConnEvent :=
  if verify token callerAddr then
    if upgradeOk then
      [.verifyCall true, .upgradeAttempt true, .assignColor, .registerClient]
    else [.verifyCall true, .upgradeAttempt false]
  else [.verifyCall false]

/-- A deflate-family codec as the spec's client contract requires it: a
compressor with a decompressor that inverts it ("a standard deflate-family
stream … so any conforming client can decompress it").  The concrete DEFLATE
bit format lives in external libraries (`compress/flate` / `pako`); only
losslessness is relevant here. -/
structure LosslessCodec where
  compress : List Nat → List Nat
  decompress : List Nat → List Nat
  roundTrip : ∀ b, decompress (compress b) = b

/-- The trivial (identity) member of `LosslessCodec`. -/
def idCodec : LosslessCodec :=
  { compress := id, decompress := id, roundTrip := fun _ => rfl }

/-- Modelled from the spec: the canonical PanelSync frame for a valid
Request — the 1-byte type discriminant 5, the 2-byte big-endian panel index
(as in `src/server.go`'s `MsgTypeRequest` case), and the panel's raw RGB
export compressed with the deflate-family codec (the compressing server
generation is not under `src/`; the client under `src/src/App.jsx` inflates
the payload starting at offset 3). -/
def panelSyncFrame (codec : LosslessCodec) (g : Grid) (panel : Nat) :
    List Nat :=
  [5] ++ be16 panel ++ codec.compress (readPanel g panel)

/-- A concrete grid whose cell `(0, 0, 0)` was written with color `(1,2,3)`
at millisecond 5 — the state after one applied update, used to exercise the
tie-rejection path on concrete inputs. -/
def gTs5 : Grid := Function.update initialGrid (0, 0, 0) ⟨1, 2, 3, 5⟩

/-! ## General lemmas about folds of point updates -/

theorem foldl_update_ne {α β γ : Type} [DecidableEq β] (K : α → β) (v : α → γ) :
    ∀ (l : List α) (f : β → γ) (b : β), (∀ t ∈ l, K t ≠ b) →
      l.foldl (fun f' t => Function.update f' (K t) (v t)) f b = f b := by
  intro l
  induction l with
  | nil => intro f b _; rfl
  | cons h tl ih =>
    intro f b hb
    simp only [List.foldl_cons]
    rw [ih _ b fun t ht => hb t (List.mem_cons_of_mem _ ht)]
    rw [Function.update_noteq (Ne.symm (hb h (List.mem_cons_self _ _)))]

theorem foldl_update_eq {α β γ : Type} [DecidableEq β] (K : α → β) (v : α → γ) :
    ∀ (l : List α) (f : β → γ) (t : α), t ∈ l →
      (∀ a ∈ l, ∀ b ∈ l, K a = K b → a = b) →
      l.foldl (fun f' t' => Function.update f' (K t') (v t')) f (K t) = v t := by
  intro l
  induction l with
  | nil => intro f t ht _; exact absurd ht (List.not_mem_nil t)
  | cons h tl ih =>
    intro f t ht hinj
    simp only [List.foldl_cons]
    by_cases htl : t ∈ tl
    · exact ih _ t htl fun a ha b hb =>
        hinj a (List.mem_cons_of_mem _ ha) b (List.mem_cons_of_mem _ hb)
    · have hth : t = h := by
        rcases List.mem_cons.mp ht with h1 | h2
        · exact h1
        · exact absurd h2 htl
      subst hth
      rw [foldl_update_ne]
      · simp [Function.update_same]
      · intro a ha hKa
        exact htl (by
          have := hinj a (List.mem_cons_of_mem _ ha) t (List.mem_cons_self _ _) hKa
          rwa [this] at ha)

/-! ## Claim theorems -/

/-- C1: for every in-range cell write, the cell's color and timestamp are
stored if and only if the write's timestamp is strictly greater than the
cell's current timestamp; when the timestamps are equal or the new one is
smaller, the cell's R, G, B and Timestamp are left unchanged (on a tie the
earlier writer wins, since `>` is strict) and the write is reported as not
applied. -/
theorem c1_write_lww (g : Grid) (panel y x rVal gVal bVal : Nat) (now : Int)
    (hp : panel < numPanels) (hy : y < panelSize) (hx : x < panelSize) :
    ((writeCell g panel y x rVal gVal bVal now).2 = true ↔
        (g (panel, y, x)).Timestamp < now) ∧
      ((writeCell g panel y x rVal gVal bVal now).2 = true →
        (writeCell g panel y x rVal gVal bVal now).1 (panel, y, x) =
          ⟨rVal, gVal, bVal, now⟩) ∧
      (now ≤ (g (panel, y, x)).Timestamp →
        (writeCell g panel y x rVal gVal bVal now).1 = g ∧
          (writeCell g panel y x rVal gVal bVal now).2 = false) := by
  unfold writeCell
  by_cases h : (g (panel, y, x)).Timestamp < now
  · rw [if_pos (gt_iff_lt.mpr h)]
    refine ⟨⟨fun _ => h, fun _ => rfl⟩, fun _ => Function.update_same _ _ _,
      fun hle => absurd h (not_lt.mpr hle)⟩
  · rw [if_neg (fun hgt => h (gt_iff_lt.mp hgt))]
    refine ⟨⟨fun hf => absurd hf (by simp), fun hlt => absurd hlt h⟩,
      fun hf => absurd hf (by simp), fun _ => ⟨rfl, rfl⟩⟩

theorem c1_write_lww_witness :
    ((0 : Nat) < numPanels ∧ (0 : Nat) < panelSize) ∧
      ((writeCell gTs5 0 0 0 9 8 7 5).2 = true ↔
          (gTs5 (0, 0, 0)).Timestamp < 5) ∧
        ((writeCell gTs5 0 0 0 9 8 7 5).2 = true →
          (writeCell gTs5 0 0 0 9 8 7 5).1 (0, 0, 0) = ⟨9, 8, 7, 5⟩) ∧
        ((5 : Int) ≤ (gTs5 (0, 0, 0)).Timestamp →
          (writeCell gTs5 0 0 0 9 8 7 5).1 = gTs5 ∧
            (writeCell gTs5 0 0 0 9 8 7 5).2 = false) :=
  ⟨⟨by decide, by decide⟩,
    c1_write_lww gTs5 0 0 0 9 8 7 5 (by decide) (by decide) (by decide)⟩

/-- C10: Go zero-initializes the global `panels` array, so before any
snapshot restore every cell holds color `(0, 0, 0)` with timestamp 0, and
the first in-range update applied to a never-written cell with any positive
wall-clock millisecond timestamp passes the strict last-write-wins
comparison and is stored. -/
theorem c10_initial_state (panel y x rVal gVal bVal : Nat) (now : Int)
    (hp : panel < numPanels) (hy : y < panelSize) (hx : x < panelSize)
    (hnow : 0 < now) :
    initialGrid (panel, y, x) = ⟨0, 0, 0, 0⟩ ∧
      (writeCell initialGrid panel y x rVal gVal bVal now).2 = true ∧
      (writeCell initialGrid panel y x rVal gVal bVal now).1 (panel, y, x) =
        ⟨rVal, gVal, bVal, now⟩ := by
  refine ⟨rfl, ?_, ?_⟩ <;>
    simp [writeCell, initialGrid, hnow, Function.update_same]

theorem c10_initial_state_witness :
    ((2 : Nat) < numPanels ∧ (3 : Nat) < panelSize ∧ (4 : Nat) < panelSize ∧
        (0 : Int) < 1) ∧
      initialGrid (2, 3, 4) = ⟨0, 0, 0, 0⟩ ∧
        (writeCell initialGrid 2 3 4 10 20 30 1).2 = true ∧
        (writeCell initialGrid 2 3 4 10 20 30 1).1 (2, 3, 4) =
          ⟨10, 20, 30, 1⟩ :=
  ⟨⟨by decide, by decide, by decide, by decide⟩,
    c10_initial_state 2 3 4 10 20 30 1 (by decide) (by decide) (by decide)
      (by decide)⟩

/-- C2 counterexample: a valid, in-range Update whose write is rejected by
the last-write-wins rule (timestamp tie at millisecond 5 on cell `(0,0,0)`
of `gTs5`) still produces both the Broadcast frame handed to the hub and the
UpdateAck — refuting the claim that a rejected Update produces no broadcast
and no ack. -/
theorem c2_counterexample :
    (writeCell gTs5 0 0 0 9 8 7 5).2 = false ∧
      (handleMessage (9, 8, 7) 5 gTs5 [1, 0, 0, 0, 0]).1 (0, 0, 0) =
        ⟨1, 2, 3, 5⟩ ∧
      (handleMessage (9, 8, 7) 5 gTs5 [1, 0, 0, 0, 0]).2 =
        [Out.toHub [4, 0, 0, 0, 0, 9, 8, 7, 0, 0, 0, 0, 0, 0, 0, 5],
          Out.toClient [3, 1]] :=
  ⟨by decide, by decide, by decide⟩

/-- C2 (amended): for every valid, in-range Update frame, the inbound loop
hands a Broadcast frame to the hub and enqueues an UpdateAck to the sender
unconditionally — whether or not the `writeCell` applied the write; an
Update rejected by the last-write-wins rule still produces both (the
broadcast carrying the rejected color and timestamp). -/
theorem c2_broadcast_ack_unconditional (color : Nat × Nat × Nat) (now : Int)
    (g : Grid) (data : List Nat)
    (h1 : data.getD 0 0 = 1) (h5 : 5 ≤ data.length)
    (hp : 256 * data.getD 1 0 + data.getD 2 0 < numPanels)
    (hx : data.getD 3 0 < panelSize) (hy : data.getD 4 0 < panelSize) :
    handleMessage color now g data =
      ((writeCell g (256 * data.getD 1 0 + data.getD 2 0) (data.getD 4 0)
          (data.getD 3 0) color.1 color.2.1 color.2.2 now).1,
        [Out.toHub ([4] ++ be16 (256 * data.getD 1 0 + data.getD 2 0) ++
            [data.getD 3 0, data.getD 4 0, color.1, color.2.1, color.2.2] ++
            be64 (uint64ofInt now)),
          Out.toClient [3, 1]]) := by
  simp only [handleMessage]
  rw [if_neg (by omega : ¬data.length < 1), if_pos h1,
    if_neg (by omega : ¬data.length < 5),
    if_neg (by push_neg; exact ⟨hp, hx, hy⟩)]

theorem c2_broadcast_ack_unconditional_witness :
    (([1, 0, 0, 0, 0] : List Nat).getD 0 0 = 1 ∧
        5 ≤ ([1, 0, 0, 0, 0] : List Nat).length ∧
        256 * ([1, 0, 0, 0, 0] : List Nat).getD 1 0 +
            ([1, 0, 0, 0, 0] : List Nat).getD 2 0 < numPanels ∧
        ([1, 0, 0, 0, 0] : List Nat).getD 3 0 < panelSize ∧
        ([1, 0, 0, 0, 0] : List Nat).getD 4 0 < panelSize) ∧
      handleMessage (9, 8, 7) 5 gTs5 [1, 0, 0, 0, 0] =
        ((writeCell gTs5 (256 * ([1, 0, 0, 0, 0] : List Nat).getD 1 0 +
              ([1, 0, 0, 0, 0] : List Nat).getD 2 0)
            (([1, 0, 0, 0, 0] : List Nat).getD 4 0)
            (([1, 0, 0, 0, 0] : List Nat).getD 3 0) 9 8 7 5).1,
          [Out.toHub ([4] ++ be16 (256 * ([1, 0, 0, 0, 0] : List Nat).getD 1 0 +
                ([1, 0, 0, 0, 0] : List Nat).getD 2 0) ++
              [([1, 0, 0, 0, 0] : List Nat).getD 3 0,
                ([1, 0, 0, 0, 0] : List Nat).getD 4 0, 9, 8, 7] ++
              be64 (uint64ofInt 5)),
            Out.toClient [3, 1]]) :=
  ⟨⟨by decide, by decide, by decide, by decide, by decide⟩,
    c2_broadcast_ack_unconditional (9, 8, 7) 5 gTs5 [1, 0, 0, 0, 0]
      (by decide) (by decide) (by decide) (by decide) (by decide)⟩

/-- C4: an Update frame whose parsed panel index is outside
`[0, numPanels)` or whose x or y coordinate is outside `[0, panelSize)`, and
a Request frame whose panel index is outside `[0, numPanels)`, are rejected
before any grid access: the grid is returned unmodified, no broadcast or ack
is produced, and the inbound loop goes on to process subsequent frames as if
the rejected frame had not arrived.  (The parsed values come from a `uint16`
and single bytes, so the source's `< 0` checks are vacuous.) -/
theorem c4_range_rejection (color : Nat × Nat × Nat) (now : Int) (g : Grid)
    (data : List Nat)
    (h : (data.getD 0 0 = 1 ∧ 5 ≤ data.length ∧
            (numPanels ≤ 256 * data.getD 1 0 + data.getD 2 0 ∨
              panelSize ≤ data.getD 3 0 ∨ panelSize ≤ data.getD 4 0)) ∨
          (data.getD 0 0 = 2 ∧ 3 ≤ data.length ∧
            numPanels ≤ 256 * data.getD 1 0 + data.getD 2 0)) :
    handleMessage color now g data = (g, []) ∧
      ∀ rest, processMessages color g ((now, data) :: rest) =
        processMessages color g rest := by
  have hmain : handleMessage color now g data = (g, []) := by
    rcases h with ⟨h1, h5, hbad⟩ | ⟨h2, h3, hbad⟩
    · simp only [handleMessage]
      rw [if_neg (by omega : ¬data.length < 1), if_pos h1,
        if_neg (by omega : ¬data.length < 5), if_pos hbad]
    · simp only [handleMessage]
      rw [if_neg (by omega : ¬data.length < 1),
        if_neg (by omega : ¬data.getD 0 0 = 1), if_pos h2,
        if_neg (by omega : ¬data.length < 3), if_pos hbad]
  refine ⟨hmain, fun rest => ?_⟩
  simp only [processMessages, List.foldl_cons, hmain, List.append_nil]

theorem c4_range_rejection_witness :
    (([1, 3, 84, 0, 0] : List Nat).getD 0 0 = 1 ∧
        5 ≤ ([1, 3, 84, 0, 0] : List Nat).length ∧
        (numPanels ≤ 256 * ([1, 3, 84, 0, 0] : List Nat).getD 1 0 +
            ([1, 3, 84, 0, 0] : List Nat).getD 2 0 ∨
          panelSize ≤ ([1, 3, 84, 0, 0] : List Nat).getD 3 0 ∨
          panelSize ≤ ([1, 3, 84, 0, 0] : List Nat).getD 4 0)) ∧
      handleMessage (9, 8, 7) 5 initialGrid [1, 3, 84, 0, 0] =
        (initialGrid, []) ∧
      processMessages (9, 8, 7) initialGrid
          ((5, [1, 3, 84, 0, 0]) :: [(6, [1, 0, 0, 0, 0])]) =
        processMessages (9, 8, 7) initialGrid [(6, [1, 0, 0, 0, 0])] := by
  have h :
      (([1, 3, 84, 0, 0] : List Nat).getD 0 0 = 1 ∧
          5 ≤ ([1, 3, 84, 0, 0] : List Nat).length ∧
          (numPanels ≤ 256 * ([1, 3, 84, 0, 0] : List Nat).getD 1 0 +
              ([1, 3, 84, 0, 0] : List Nat).getD 2 0 ∨
            panelSize ≤ ([1, 3, 84, 0, 0] : List Nat).getD 3 0 ∨
            panelSize ≤ ([1, 3, 84, 0, 0] : List Nat).getD 4 0)) ∨
        (([1, 3, 84, 0, 0] : List Nat).getD 0 0 = 2 ∧
          3 ≤ ([1, 3, 84, 0, 0] : List Nat).length ∧
          numPanels ≤ 256 * ([1, 3, 84, 0, 0] : List Nat).getD 1 0 +
            ([1, 3, 84, 0, 0] : List Nat).getD 2 0) := by
    left; exact ⟨by decide, by decide, by decide⟩
  exact ⟨⟨by decide, by decide, by decide⟩,
    (c4_range_rejection (9, 8, 7) 5 initialGrid [1, 3, 84, 0, 0] h).1,
    (c4_range_rejection (9, 8, 7) 5 initialGrid [1, 3, 84, 0, 0] h).2
      [(6, [1, 0, 0, 0, 0])]⟩

/-! ### Hub lemmas -/

theorem hubBroadcast_kept_mem (m : Out) :
    ∀ s : List HClient, ∀ c ∈ s, c.queue.length < sendQueueCap →
      { c with queue := c.queue ++ [m] } ∈ (hubBroadcast m s).1 := by
  intro s
  induction s with
  | nil => intro c hc; exact absurd hc (List.not_mem_nil c)
  | cons hd tl ih =>
    intro c hc hroom
    simp only [hubBroadcast]
    rcases List.mem_cons.mp hc with hch | hctl
    · subst hch
      rw [if_pos hroom]
      exact List.mem_cons_self _ _
    · by_cases hhd : hd.queue.length < sendQueueCap
      · rw [if_pos hhd]
        exact List.mem_cons_of_mem _ (ih c hctl hroom)
      · rw [if_neg hhd]
        exact ih c hctl hroom

theorem hubBroadcast_kept_src (m : Out) :
    ∀ s : List HClient, ∀ c' ∈ (hubBroadcast m s).1,
      ∃ c ∈ s, c.queue.length < sendQueueCap ∧
        c' = { c with queue := c.queue ++ [m] } := by
  intro s
  induction s with
  | nil => intro c' hc'; exact absurd hc' (List.not_mem_nil c')
  | cons hd tl ih =>
    intro c' hc'
    simp only [hubBroadcast] at hc'
    by_cases hhd : hd.queue.length < sendQueueCap
    · rw [if_pos hhd] at hc'
      rcases List.mem_cons.mp hc' with h1 | h2
      · exact ⟨hd, List.mem_cons_self _ _, hhd, h1⟩
      · obtain ⟨c, hc, hr, he⟩ := ih c' h2
        exact ⟨c, List.mem_cons_of_mem _ hc, hr, he⟩
    · rw [if_neg hhd] at hc'
      obtain ⟨c, hc, hr, he⟩ := ih c' hc'
      exact ⟨c, List.mem_cons_of_mem _ hc, hr, he⟩

theorem hubBroadcast_evicted_mem (m : Out) :
    ∀ s : List HClient, ∀ c ∈ s, sendQueueCap ≤ c.queue.length →
      { c with closed := true } ∈ (hubBroadcast m s).2 := by
  intro s
  induction s with
  | nil => intro c hc; exact absurd hc (List.not_mem_nil c)
  | cons hd tl ih =>
    intro c hc hfull
    simp only [hubBroadcast]
    rcases List.mem_cons.mp hc with hch | hctl
    · subst hch
      rw [if_neg (not_lt.mpr hfull)]
      exact List.mem_cons_self _ _
    · by_cases hhd : hd.queue.length < sendQueueCap
      · rw [if_pos hhd]
        exact ih c hctl hfull
      · rw [if_neg hhd]
        exact List.mem_cons_of_mem _ (ih c hctl hfull)

theorem hubStep_id_not_mem (i : Nat) (s : List HClient) (cmd : HubCmd)
    (hs : i ∉ s.map HClient.id) (hreg : ¬registersId i cmd) :
    i ∉ (hubStep s cmd).map HClient.id := by
  cases cmd with
  | register c =>
    simp only [registersId] at hreg
    simp only [hubStep, hubRegister]
    by_cases hin : s.any fun c' => c'.id = c.id
    · rw [if_pos hin]; exact hs
    · rw [if_neg hin]
      intro hmem
      rcases List.mem_map.mp hmem with ⟨c', hc', hid⟩
      rcases List.mem_append.mp hc' with h1 | h2
      · exact hs (List.mem_map.mpr ⟨c', h1, hid⟩)
      · rcases List.mem_singleton.mp h2 with rfl
        exact hreg hid
  | unregister j =>
    simp only [hubStep, hubUnregister]
    intro hmem
    rcases List.mem_map.mp hmem with ⟨c', hc', hid⟩
    exact hs (List.mem_map.mpr ⟨c', List.mem_of_mem_filter hc', hid⟩)
  | broadcast m =>
    simp only [hubStep]
    intro hmem
    rcases List.mem_map.mp hmem with ⟨c', hc', hid⟩
    obtain ⟨c, hc, _, he⟩ := hubBroadcast_kept_src m s c' hc'
    exact hs (List.mem_map.mpr ⟨c, hc, by rw [← hid, he]⟩)

theorem hubRun_id_not_mem (i : Nat) :
    ∀ (cmds : List HubCmd) (s : List HClient), i ∉ s.map HClient.id →
      (∀ cmd ∈ cmds, ¬registersId i cmd) →
      i ∉ (hubRun s cmds).map HClient.id := by
  intro cmds
  induction cmds with
  | nil => intro s hs _; exact hs
  | cons c cs ih =>
    intro s hs hreg
    exact ih (hubStep s c)
      (hubStep_id_not_mem i s c hs (hreg c (List.mem_cons_self _ _)))
      fun cmd hcmd => hreg cmd (List.mem_cons_of_mem _ hcmd)

/-- C3: a Broadcast processed by the hub attempts one non-blocking enqueue
per registered client — every client with queue room receives exactly the
one broadcast message appended, and every remaining client is one of these;
a client whose queue is full is removed from the client set during that same
broadcast with its queue closed; and once an identity is out of the client
set it never reappears under any subsequent command sequence that does not
re-register it, so no subsequent broadcast ever targets it. -/
theorem c3_hub_fanout (m : Out) (s : List HClient)
    (hnd : (s.map HClient.id).Nodup) :
    (∀ c ∈ s, c.queue.length < sendQueueCap →
      { c with queue := c.queue ++ [m] } ∈ (hubBroadcast m s).1) ∧
      (∀ c' ∈ (hubBroadcast m s).1, ∃ c ∈ s,
        c.queue.length < sendQueueCap ∧
          c' = { c with queue := c.queue ++ [m] }) ∧
      (∀ c ∈ s, sendQueueCap ≤ c.queue.length →
        { c with closed := true } ∈ (hubBroadcast m s).2 ∧
          c.id ∉ (hubBroadcast m s).1.map HClient.id) ∧
      (∀ (cmds : List HubCmd) (i : Nat),
        i ∉ (hubBroadcast m s).1.map HClient.id →
        (∀ cmd ∈ cmds, ¬registersId i cmd) →
        i ∉ (hubRun (hubBroadcast m s).1 cmds).map HClient.id) := by
  refine ⟨hubBroadcast_kept_mem m s, hubBroadcast_kept_src m s,
    fun c hc hfull => ⟨hubBroadcast_evicted_mem m s c hc hfull, ?_⟩,
    fun cmds i hi hreg => hubRun_id_not_mem i cmds _ hi hreg⟩
  intro hmem
  rcases List.mem_map.mp hmem with ⟨c', hc', hid⟩
  obtain ⟨c2, hc2, hroom, he⟩ := hubBroadcast_kept_src m s c' hc'
  have hcc : c2 = c := by
    refine List.inj_on_of_nodup_map hnd hc2 hc ?_
    rw [← hid, he]
  rw [hcc] at hroom
  exact absurd hroom (not_lt.mpr hfull)

theorem c3_hub_fanout_witness :
    (([⟨0, [], false⟩,
        ⟨1, List.replicate 256 (Out.toClient [3, 1]), false⟩] :
          List HClient).map HClient.id).Nodup ∧
      ({ id := 0, queue := [Out.toClient [9]], closed := false } : HClient) ∈
        (hubBroadcast (Out.toClient [9])
          [⟨0, [], false⟩,
            ⟨1, List.replicate 256 (Out.toClient [3, 1]), false⟩]).1 ∧
      ({ id := 1, queue := List.replicate 256 (Out.toClient [3, 1]),
          closed := true } : HClient) ∈
        (hubBroadcast (Out.toClient [9])
          [⟨0, [], false⟩,
            ⟨1, List.replicate 256 (Out.toClient [3, 1]), false⟩]).2 ∧
      (1 : Nat) ∉
        ((hubBroadcast (Out.toClient [9])
          [⟨0, [], false⟩,
            ⟨1, List.replicate 256 (Out.toClient [3, 1]), false⟩]).1.map
          HClient.id) ∧
      (1 : Nat) ∉
        ((hubRun
          (hubBroadcast (Out.toClient [9])
            [⟨0, [], false⟩,
              ⟨1, List.replicate 256 (Out.toClient [3, 1]), false⟩]).1
          [HubCmd.broadcast (Out.toClient [10])]).map HClient.id) := by
  have hnd :
      (([⟨0, [], false⟩,
          ⟨1, List.replicate 256 (Out.toClient [3, 1]), false⟩] :
            List HClient).map HClient.id).Nodup := by decide
  have h := c3_hub_fanout (Out.toClient [9])
    [⟨0, [], false⟩, ⟨1, List.replicate 256 (Out.toClient [3, 1]), false⟩] hnd
  have hfull := h.2.2.1 ⟨1, List.replicate 256 (Out.toClient [3, 1]), false⟩
    (List.mem_cons_of_mem _ (List.mem_cons_self _ _))
    (show sendQueueCap ≤ (List.replicate 256 (Out.toClient [3, 1])).length by
      rw [List.length_replicate]; decide)
  exact ⟨hnd,
    h.1 ⟨0, [], false⟩ (List.mem_cons_self _ _)
      (by simp [sendQueueCap]),
    hfull.1, hfull.2,
    h.2.2.2 [HubCmd.broadcast (Out.toClient [10])] 1 hfull.2
      (by intro cmd hcmd
          rcases List.mem_singleton.mp hcmd with rfl
          simp [registersId])⟩

/-! ### Token-bucket lemmas -/

theorem countAllowed_invariant (rate burst : Int) (hr : 0 ≤ rate)
    (hb : 0 ≤ burst) :
    ∀ (l : List Int) (tb : TokenBucket), 0 ≤ tb.tokens →
      (∀ e ∈ l, 0 ≤ e) →
      0 ≤ (countAllowed rate burst tb l).1.tokens ∧
        ((countAllowed rate burst tb l).2 : Int) +
            (countAllowed rate burst tb l).1.tokens ≤
          tb.tokens + rate * l.sum := by
  intro l
  induction l with
  | nil =>
    intro tb h0 _
    refine ⟨h0, ?_⟩
    simp [countAllowed]
  | cons e es ih =>
    intro tb h0 hl
    have he : (0 : Int) ≤ e := hl e (List.mem_cons_self _ _)
    have hre : (0 : Int) ≤ rate * e := mul_nonneg hr he
    have hmin₁ : min (tb.tokens + rate * e) burst ≤ tb.tokens + rate * e :=
      min_le_left _ _
    have hmin₀ : (0 : Int) ≤ min (tb.tokens + rate * e) burst :=
      le_min (by linarith) hb
    by_cases h1 : 1 ≤ min (tb.tokens + rate * e) burst
    · have hrec := ih ⟨min (tb.tokens + rate * e) burst - 1⟩
        (by simp only; linarith)
        (fun x hx => hl x (List.mem_cons_of_mem _ hx))
      simp only [countAllowed, tbStep, if_pos h1] at *
      refine ⟨hrec.1, ?_⟩
      push_cast
      simp only [List.sum_cons, mul_add]
      linarith [hrec.2]
    · have hrec := ih ⟨min (tb.tokens + rate * e) burst⟩ (by simpa using hmin₀)
        (fun x hx => hl x (List.mem_cons_of_mem _ hx))
      simp only [countAllowed, tbStep, if_neg h1] at *
      refine ⟨hrec.1, ?_⟩
      push_cast
      simp only [List.sum_cons, mul_add]
      linarith [hrec.2]

/-- C5: per the spec's converged design, Update frames are admitted through
a per-connection token bucket; an Update arriving when the bucket is
exhausted is silently dropped (no cell write, no broadcast, no ack, no error
frame of any kind), and over any window of Updates the number admitted is
bounded by burst + rate·window, so a connection sending more Updates than
that has some of them dropped. -/
theorem c5_rate_limiting (rate burst : Int) (color : Nat × Nat × Nat)
    (tb : TokenBucket) (elapsed now : Int) (g : Grid) (data : List Nat)
    (l : List Int)
    (hr : 0 ≤ rate) (hb : 0 ≤ burst) (h0 : 0 ≤ tb.tokens)
    (hcap : tb.tokens ≤ burst) (hl : ∀ e ∈ l, 0 ≤ e) :
    (data.getD 0 0 = 1 → (tbStep rate burst elapsed tb).2 = false →
      rateLimitedStep rate burst color tb elapsed now g data =
        ((tbStep rate burst elapsed tb).1, g, [])) ∧
      ((countAllowed rate burst tb l).2 : Int) ≤ burst + rate * l.sum ∧
      (burst + rate * l.sum < (l.length : Int) →
        (countAllowed rate burst tb l).2 < l.length) := by
  have hinv := countAllowed_invariant rate burst hr hb l tb h0 hl
  have hcount : ((countAllowed rate burst tb l).2 : Int) ≤
      burst + rate * l.sum := by linarith [hinv.1, hinv.2]
  refine ⟨?_, hcount, ?_⟩
  · intro h1 hfalse
    simp only [rateLimitedStep, if_pos h1, hfalse]
    simp
  · intro hlt
    have : ((countAllowed rate burst tb l).2 : Int) < (l.length : Int) := by
      linarith
    exact_mod_cast this

theorem c5_rate_limiting_witness :
    (([1, 0, 0, 0, 0] : List Nat).getD 0 0 = 1 ∧
        (tbStep 0 1 0 ⟨0⟩).2 = false ∧
        (∀ e ∈ ([0, 0] : List Int), 0 ≤ e) ∧
        (1 : Int) + 0 * ([0, 0] : List Int).sum <
          (([0, 0] : List Int).length : Int)) ∧
      rateLimitedStep 0 1 (9, 8, 7) ⟨0⟩ 0 5 initialGrid [1, 0, 0, 0, 0] =
        ((tbStep 0 1 0 ⟨0⟩).1, initialGrid, []) ∧
      ((countAllowed 0 1 ⟨0⟩ [0, 0]).2 : Int) ≤
        1 + 0 * ([0, 0] : List Int).sum ∧
      (countAllowed 0 1 ⟨0⟩ [0, 0]).2 < ([0, 0] : List Int).length := by
  have h := c5_rate_limiting 0 1 (9, 8, 7) ⟨0⟩ 0 5 initialGrid
    [1, 0, 0, 0, 0] [0, 0] (by decide) (by decide) (by decide) (by decide)
    (by decide)
  exact ⟨⟨by decide, by decide, by decide, by decide⟩,
    h.1 (by decide) (by decide), h.2.1, h.2.2 (by decide)⟩

/-- C6: per the spec's converged design, the admission check
`Verify(token, callerAddress)` is invoked exactly once per connection
attempt, as the very first step — hence synchronously before the transport
upgrade — and when it fails the handler ends at once: the trace is just the
failed check, with no upgrade attempt and no client registration. -/
theorem c6_admission_gate (verify : List Char → List Char → Bool)
    (token callerAddr : List Char) (upgradeOk : Bool) :
    (serveWsAdmission verify token callerAddr upgradeOk).countP
        (fun e => match e with
          | ConnEvent.verifyCall _ => true
          | _ => false) = 1 ∧
      (serveWsAdmission verify token callerAddr upgradeOk).head? =
        some (ConnEvent.verifyCall (verify token callerAddr)) ∧
      (verify token callerAddr = false →
        serveWsAdmission verify token callerAddr upgradeOk =
          [ConnEvent.verifyCall false]) ∧
      (verify token callerAddr = false →
        ConnEvent.upgradeAttempt true ∉
            serveWsAdmission verify token callerAddr upgradeOk ∧
          ConnEvent.upgradeAttempt false ∉
            serveWsAdmission verify token callerAddr upgradeOk ∧
          ConnEvent.registerClient ∉
            serveWsAdmission verify token callerAddr upgradeOk) := by
  cases h : verify token callerAddr <;> cases upgradeOk <;>
    simp [serveWsAdmission, h]

theorem c6_admission_gate_witness :
    ((fun _ _ => false : List Char → List Char → Bool) "tok".data
        "1.2.3.4".data = false) ∧
      serveWsAdmission (fun _ _ => false) "tok".data "1.2.3.4".data true =
        [ConnEvent.verifyCall false] ∧
      ConnEvent.upgradeAttempt true ∉
        serveWsAdmission (fun _ _ => false) "tok".data "1.2.3.4".data true ∧
      ConnEvent.registerClient ∉
        serveWsAdmission (fun _ _ => false) "tok".data "1.2.3.4".data true :=
  ⟨rfl,
    (c6_admission_gate (fun _ _ => false) "tok".data "1.2.3.4".data
        true).2.2.1 rfl,
    ((c6_admission_gate (fun _ _ => false) "tok".data "1.2.3.4".data
        true).2.2.2 rfl).1,
    ((c6_admission_gate (fun _ _ => false) "tok".data "1.2.3.4".data
        true).2.2.2 rfl).2.2⟩

/-! ### Payload-length lemmas -/

theorem length_flatMap_const {α β : Type} (f : α → List β) (k : Nat) :
    ∀ l : List α, (∀ a ∈ l, (f a).length = k) →
      (l.flatMap f).length = l.length * k := by
  intro l
  induction l with
  | nil => intro _; simp
  | cons a tl ih =>
    intro h
    simp only [List.flatMap_cons, List.length_append, List.length_cons,
      ih fun x hx => h x (List.mem_cons_of_mem _ hx),
      h a (List.mem_cons_self _ _)]
    ring

theorem readPanel_length (g : Grid) (panel : Nat) :
    (readPanel g panel).length = panelSize * panelSize * 3 := by
  unfold readPanel
  rw [length_flatMap_const _ (panelSize * 3)]
  · rw [List.length_range]; ring
  · intro y _
    rw [length_flatMap_const _ 3]
    · rw [List.length_range]
    · intro x _; rfl

/-- C8: the canonical PanelSync frame for a valid Request is the one-byte
type discriminant 5, the two-byte big-endian panel index (those two bytes
decode back to the requested panel), and a payload that any lossless
deflate-family codec's decompressor maps back to exactly
`panelSize · panelSize · 3` bytes — the requested panel's raw RGB data. -/
theorem c8_panelsync_frame (codec : LosslessCodec) (g : Grid) (panel : Nat)
    (hp : panel < numPanels) :
    panelSyncFrame codec g panel =
        5 :: (panel / 256) :: (panel % 256) ::
          codec.compress (readPanel g panel) ∧
      256 * (panel / 256) + panel % 256 = panel ∧
      codec.decompress ((panelSyncFrame codec g panel).drop 3) =
        readPanel g panel ∧
      (codec.decompress ((panelSyncFrame codec g panel).drop 3)).length =
        panelSize * panelSize * 3 := by
  have hlt : panel < 65536 := by
    have := hp
    simp only [numPanels] at this
    omega
  have hfr : panelSyncFrame codec g panel =
      5 :: (panel / 256) :: (panel % 256) ::
        codec.compress (readPanel g panel) := by
    simp [panelSyncFrame, be16, Nat.mod_eq_of_lt hlt]
  have hdrop : codec.decompress ((panelSyncFrame codec g panel).drop 3) =
      readPanel g panel := by
    rw [hfr]
    simpa using codec.roundTrip (readPanel g panel)
  exact ⟨hfr, by omega, hdrop, by rw [hdrop]; exact readPanel_length g panel⟩

theorem c8_panelsync_frame_witness :
    ((5 : Nat) < numPanels) ∧
      panelSyncFrame idCodec initialGrid 5 =
          5 :: (5 / 256) :: (5 % 256) ::
            idCodec.compress (readPanel initialGrid 5) ∧
        256 * (5 / 256) + 5 % 256 = 5 ∧
        idCodec.decompress ((panelSyncFrame idCodec initialGrid 5).drop 3) =
          readPanel initialGrid 5 ∧
        (idCodec.decompress
            ((panelSyncFrame idCodec initialGrid 5).drop 3)).length =
          panelSize * panelSize * 3 :=
  ⟨by decide, c8_panelsync_frame idCodec initialGrid 5 (by decide)⟩

/-! ### Snapshot-tiling lemmas -/

theorem mem_cellList {t : Nat × Nat × Nat} :
    t ∈ cellList ↔
      t.1 < numPanels ∧ t.2.1 < panelSize ∧ t.2.2 < panelSize := by
  obtain ⟨i, y, x⟩ := t
  simp only [cellList, List.mem_flatMap, List.mem_map, List.mem_range,
    Prod.mk.injEq]
  constructor
  · rintro ⟨a, ha, b, hb, c, hc, rfl, rfl, rfl⟩
    exact ⟨ha, hb, hc⟩
  · rintro ⟨hi, hy, hx⟩
    exact ⟨i, hi, y, hy, x, hx, rfl, rfl, rfl⟩

theorem tileKey_inj :
    ∀ t1 ∈ cellList, ∀ t2 ∈ cellList,
      ((tileX t1.1 t1.2.2, tileY t1.1 t1.2.1) : Nat × Nat) =
        (tileX t2.1 t2.2.2, tileY t2.1 t2.2.1) → t1 = t2 := by
  intro t1 h1 t2 h2 heq
  obtain ⟨i1, y1, x1⟩ := t1
  obtain ⟨i2, y2, x2⟩ := t2
  rw [mem_cellList] at h1 h2
  simp only [Prod.mk.injEq] at heq ⊢
  simp only [tileX, tileY, panelSize, snapCols, numPanels] at h1 h2 heq
  omega

theorem foldl_imgSet {T : Type} (KX KY : T → Nat) (V : T → Rgba) :
    ∀ (l : List T) (img : RGBAImage),
      (∀ t ∈ l, KX t < img.width ∧ KY t < img.height) →
      l.foldl (fun im t => imgSet im (KX t) (KY t) (V t)) img =
        { img with
          pix := l.foldl
            (fun f t => Function.update f (KX t, KY t) (V t)) img.pix } := by
  intro l
  induction l with
  | nil => intro img _; rfl
  | cons h tl ih =>
    intro img hb
    have hh := hb h (List.mem_cons_self _ _)
    have hstep : imgSet img (KX h) (KY h) (V h) =
        { img with pix := Function.update img.pix (KX h, KY h) (V h) } := by
      unfold imgSet
      rw [if_pos ⟨hh.1, hh.2⟩]
    simp only [List.foldl_cons, hstep]
    exact ih _ fun t ht => hb t (List.mem_cons_of_mem _ ht)

theorem snapshotPanels_eq (g : Grid) :
    snapshotPanels g =
      { width := snapCols * panelSize, height := snapRows * panelSize,
        pix := cellList.foldl
          (fun f t => Function.update f (tileX t.1 t.2.2, tileY t.1 t.2.1)
            ((g t).R, (g t).G, (g t).B, 255))
          fun _ => (0, 0, 0, 0) } := by
  refine foldl_imgSet (fun t => tileX t.1 t.2.2) (fun t => tileY t.1 t.2.1)
    (fun t => ((g t).R, (g t).G, (g t).B, 255)) cellList
    (newRGBA (snapCols * panelSize) (snapRows * panelSize)) ?_
  intro t ht
  rw [mem_cellList] at ht
  obtain ⟨hi, hy, hx⟩ := ht
  constructor <;>
    (simp only [newRGBA, tileX, tileY, panelSize, snapCols, snapRows,
      numPanels] at *; omega)

theorem snapshotPanels_width (g : Grid) :
    (snapshotPanels g).width = snapCols * panelSize := by
  rw [snapshotPanels_eq]

theorem snapshotPanels_height (g : Grid) :
    (snapshotPanels g).height = snapRows * panelSize := by
  rw [snapshotPanels_eq]

theorem snapshotPanels_pix (g : Grid) (i y x : Nat) (hi : i < numPanels)
    (hy : y < panelSize) (hx : x < panelSize) :
    (snapshotPanels g).pix (tileX i x, tileY i y) =
      ((g (i, y, x)).R, (g (i, y, x)).G, (g (i, y, x)).B, 255) := by
  simp only [snapshotPanels_eq]
  exact foldl_update_eq _ _ cellList (fun _ => (0, 0, 0, 0)) (i, y, x)
    (mem_cellList.mpr ⟨hi, hy, hx⟩) tileKey_inj

theorem restorePixels_at (img : RGBAImage) (g : Grid) (i y x : Nat)
    (hi : i < numPanels) (hy : y < panelSize) (hx : x < panelSize) :
    restorePixels img g (i, y, x) =
      { R := (imgAt img (tileX i x) (tileY i y)).1
        G := (imgAt img (tileX i x) (tileY i y)).2.1
        B := (imgAt img (tileX i x) (tileY i y)).2.2.1
        Timestamp := 0 } := by
  exact foldl_update_eq _ _ cellList g (i, y, x)
    (mem_cellList.mpr ⟨hi, hy, hx⟩) fun a _ b _ hab => hab

/-- C7: taking a snapshot of the grid and immediately restoring from it (the
snapshot being the only file in the data directory, the grid otherwise idle)
leaves every cell's R, G, B equal to its value at snapshot time and resets
every cell's timestamp to 0. -/
theorem c7_snapshot_restore (g : Grid) (name : List Char)
    (hext : extOf name = ".png".data) (i y x : Nat) (hi : i < numPanels)
    (hy : y < panelSize) (hx : x < panelSize) :
    ((loadLatestSnapshot [⟨name, false⟩] (fun _ => some (snapshotPanels g)) g)
        (i, y, x)).R = (g (i, y, x)).R ∧
      ((loadLatestSnapshot [⟨name, false⟩] (fun _ => some (snapshotPanels g))
          g) (i, y, x)).G = (g (i, y, x)).G ∧
      ((loadLatestSnapshot [⟨name, false⟩] (fun _ => some (snapshotPanels g))
          g) (i, y, x)).B = (g (i, y, x)).B ∧
      ((loadLatestSnapshot [⟨name, false⟩] (fun _ => some (snapshotPanels g))
          g) (i, y, x)).Timestamp = 0 := by
  have hnames : snapshotNames [⟨name, false⟩] = [name] := by
    simp [snapshotNames, hext]
  have hlatest : latestSnapshotName [⟨name, false⟩] = name := by
    simp [latestSnapshotName, hnames, sortStrings, List.insertionSort,
      List.orderedInsert, List.getLastD]
  have hload : loadLatestSnapshot [⟨name, false⟩]
      (fun _ => some (snapshotPanels g)) g =
      restorePixels (snapshotPanels g) g := by
    unfold loadLatestSnapshot
    rw [hnames, hlatest]
    simp only [List.isEmpty_cons, Bool.false_eq_true, if_false]
    rw [if_neg]
    push_neg
    exact ⟨snapshotPanels_width g, snapshotPanels_height g⟩
  have hbx : tileX i x < (snapshotPanels g).width := by
    rw [snapshotPanels_width]
    simp only [tileX, panelSize, snapCols, numPanels] at *
    omega
  have hby : tileY i y < (snapshotPanels g).height := by
    rw [snapshotPanels_height]
    simp only [tileY, panelSize, snapCols, snapRows, numPanels] at *
    omega
  have himg : imgAt (snapshotPanels g) (tileX i x) (tileY i y) =
      ((g (i, y, x)).R, (g (i, y, x)).G, (g (i, y, x)).B, 255) := by
    unfold imgAt
    rw [if_pos ⟨hbx, hby⟩]
    exact snapshotPanels_pix g i y x hi hy hx
  simp only [hload, restorePixels_at (snapshotPanels g) g i y x hi hy hx,
    himg]
  exact ⟨trivial, trivial, trivial, trivial⟩

theorem c7_snapshot_restore_witness :
    (extOf "1.png".data = ".png".data ∧ (0 : Nat) < numPanels ∧
        (0 : Nat) < panelSize) ∧
      ((loadLatestSnapshot [⟨"1.png".data, false⟩]
          (fun _ => some (snapshotPanels gTs5)) gTs5) (0, 0, 0)).R =
          (gTs5 (0, 0, 0)).R ∧
        ((loadLatestSnapshot [⟨"1.png".data, false⟩]
            (fun _ => some (snapshotPanels gTs5)) gTs5) (0, 0, 0)).G =
          (gTs5 (0, 0, 0)).G ∧
        ((loadLatestSnapshot [⟨"1.png".data, false⟩]
            (fun _ => some (snapshotPanels gTs5)) gTs5) (0, 0, 0)).B =
          (gTs5 (0, 0, 0)).B ∧
        ((loadLatestSnapshot [⟨"1.png".data, false⟩]
            (fun _ => some (snapshotPanels gTs5)) gTs5) (0, 0, 0)).Timestamp =
          0 :=
  ⟨⟨by decide, by decide, by decide⟩,
    c7_snapshot_restore gTs5 "1.png".data (by decide) 0 0 0 (by decide)
      (by decide) (by decide)⟩

/-! ### Bytewise string-order lemmas -/

theorem strLe_refl : ∀ a : List Char, strLe a a = true
  | [] => rfl
  | c :: cs => by
    unfold strLe
    rw [if_neg (lt_irrefl c), if_neg (lt_irrefl c)]
    exact strLe_refl cs

theorem strLe_total : ∀ a b : List Char, strLe a b = true ∨ strLe b a = true
  | [], _ => Or.inl rfl
  | _ :: _, [] => Or.inr rfl
  | a :: as, b :: bs => by
    unfold strLe
    rcases lt_trichotomy a b with h | h | h
    · left; rw [if_pos h]
    · subst h
      simp only [if_neg (lt_irrefl a)]
      exact strLe_total as bs
    · right; rw [if_pos h]

theorem strLe_trans :
    ∀ a b c : List Char,
      strLe a b = true → strLe b c = true → strLe a c = true
  | [], _, _ => fun _ _ => rfl
  | a :: as, [], _ => fun h1 _ => absurd h1 (by simp [strLe])
  | a :: as, b :: bs, [] => fun _ h2 => absurd h2 (by simp [strLe])
  | a :: as, b :: bs, c :: cs => by
    intro h1 h2
    unfold strLe at h1 h2 ⊢
    rcases lt_trichotomy a b with hab | hab | hab
    · rcases lt_trichotomy b c with hbc | hbc | hbc
      · rw [if_pos (lt_trans hab hbc)]
      · subst hbc; rw [if_pos hab]
      · rw [if_neg (asymm hbc), if_pos hbc] at h2
        exact absurd h2 (by simp)
    · subst hab
      rw [if_neg (lt_irrefl a), if_neg (lt_irrefl a)] at h1
      rcases lt_trichotomy a c with hac | hac | hac
      · rw [if_pos hac]
      · subst hac
        rw [if_neg (lt_irrefl a), if_neg (lt_irrefl a)] at h2 ⊢
        exact strLe_trans as bs cs h1 h2
      · rw [if_neg (asymm hac), if_pos hac] at h2
        exact absurd h2 (by simp)
    · rw [if_neg (asymm hab), if_pos hab] at h1
      exact absurd h1 (by simp)

theorem getLastD_mem {α : Type} :
    ∀ (l : List α) (d : α), l ≠ [] → l.getLastD d ∈ l
  | [], _, h => absurd rfl h
  | a :: l, d, _ => by
    rw [List.getLastD_cons]
    by_cases hl : l = []
    · subst hl
      exact List.mem_singleton.mpr rfl
    · exact List.mem_cons_of_mem _ (getLastD_mem l a hl)

theorem pairwise_rel_getLastD {α : Type} {r : α → α → Prop}
    (hrefl : ∀ a, r a a) :
    ∀ (l : List α) (d : α), l.Pairwise r → ∀ a ∈ l, r a (l.getLastD d)
  | [], _, _, a, ha => absurd ha (List.not_mem_nil a)
  | b :: l, d, hp, a, ha => by
    rw [List.getLastD_cons]
    rcases List.pairwise_cons.mp hp with ⟨hb, hl⟩
    rcases List.mem_cons.mp ha with rfl | hal
    · by_cases hle : l = []
      · subst hle; exact hrefl a
      · exact hb _ (getLastD_mem l a hle)
    · exact pairwise_rel_getLastD hrefl l b hl a hal

/-- C9: at startup the restore scans the data directory for `.png` files and
loads the bytewise-lexically last one (it is a member of the snapshot set
and every snapshot name compares `≤` to it); if reading or decoding that
file fails, or the decoded image's dimensions differ from
`cols·panelSize × rows·panelSize`, the restore is skipped and no cell of the
grid is modified — the server keeps serving from its in-memory state. -/
theorem c9_restore_errors (entries : List DirEntry)
    (readAndDecode : List Char → Option RGBAImage) (g : Grid) :
    (snapshotNames entries ≠ [] →
      latestSnapshotName entries ∈ snapshotNames entries ∧
        ∀ n ∈ snapshotNames entries,
          strLe n (latestSnapshotName entries) = true) ∧
      (readAndDecode (latestSnapshotName entries) = none →
        loadLatestSnapshot entries readAndDecode g = g) ∧
      (∀ img : RGBAImage, readAndDecode (latestSnapshotName entries) = some img →
        img.width ≠ snapCols * panelSize ∨ img.height ≠ snapRows * panelSize →
        loadLatestSnapshot entries readAndDecode g = g) := by
  refine ⟨?_, ?_, ?_⟩
  · intro hne
    have hperm : (sortStrings (snapshotNames entries)).Perm
        (snapshotNames entries) :=
      List.perm_insertionSort _ _
    have hsne : sortStrings (snapshotNames entries) ≠ [] := by
      intro h
      rw [h] at hperm
      exact hne (List.perm_nil.mp hperm.symm)
    have hmem : latestSnapshotName entries ∈
        sortStrings (snapshotNames entries) := getLastD_mem _ _ hsne
    refine ⟨hperm.mem_iff.mp hmem, ?_⟩
    intro n hn
    have hsorted : (sortStrings (snapshotNames entries)).Pairwise
        (fun a b => strLe a b = true) :=
      @List.sorted_insertionSort (List Char) (fun a b => strLe a b = true)
        (fun _ _ => instDecidableEqBool _ _) ⟨strLe_total⟩
        ⟨strLe_trans⟩ (snapshotNames entries)
    exact pairwise_rel_getLastD strLe_refl (sortStrings (snapshotNames entries))
      [] hsorted n (hperm.mem_iff.mpr hn)
  · intro hnone
    unfold loadLatestSnapshot
    by_cases hemp : (snapshotNames entries).isEmpty
    · rw [if_pos hemp]
    · rw [if_neg hemp, hnone]
  · intro img hsome hbad
    unfold loadLatestSnapshot
    by_cases hemp : (snapshotNames entries).isEmpty
    · rw [if_pos hemp]
    · rw [if_neg hemp, hsome]
      exact if_pos hbad

theorem c9_restore_errors_witness :
    (snapshotNames [⟨"b.png".data, false⟩, ⟨"a.png".data, false⟩] ≠ [] ∧
        (fun _ : List Char => (none : Option RGBAImage))
            (latestSnapshotName
              [⟨"b.png".data, false⟩, ⟨"a.png".data, false⟩]) = none ∧
        "a.png".data ∈
          snapshotNames [⟨"b.png".data, false⟩, ⟨"a.png".data, false⟩]) ∧
      latestSnapshotName [⟨"b.png".data, false⟩, ⟨"a.png".data, false⟩] ∈
        snapshotNames [⟨"b.png".data, false⟩, ⟨"a.png".data, false⟩] ∧
      strLe "a.png".data
          (latestSnapshotName
            [⟨"b.png".data, false⟩, ⟨"a.png".data, false⟩]) = true ∧
      loadLatestSnapshot [⟨"b.png".data, false⟩, ⟨"a.png".data, false⟩]
          (fun _ => (none : Option RGBAImage)) initialGrid = initialGrid := by
  have h := c9_restore_errors
    [⟨"b.png".data, false⟩, ⟨"a.png".data, false⟩]
    (fun _ => (none : Option RGBAImage)) initialGrid
  have hne : snapshotNames
      [(⟨"b.png".data, false⟩ : DirEntry), ⟨"a.png".data, false⟩] ≠ [] := by
    decide
  exact ⟨⟨hne, rfl, by decide⟩, (h.1 hne).1,
    (h.1 hne).2 "a.png".data (by decide), h.2.1 rfl⟩

end GoWS
